import Mathlib

/-!
Verification of the fwtools COFF parser and extractor.

The development embeds the two Python modules as pure Lean functions:

* Python byte strings become `List Nat` (one entry per byte);
* the file object with its cursor becomes the `PyFile` structure,
  with `read` and `seek` modelling the Python calls;
* raised exceptions (EOFError, struct.error, IndexError, IOError)
  become `none` results;
* each fixed-layout record class (`FileHdr`, `OptHdr`, `SecHdr`,
  `RelocHdr`, `SymentHdr`) becomes a structure with a little-endian
  decoder, and `Coff.readstruct` becomes the generic `readstruct`.
-/

namespace Fwtools

/-- A byte source with an explicit cursor, modelling a Python file object
opened over an immutable byte string.  `pos` may point past the end of the
data, in which case a read returns nothing. -/
structure PyFile where
  data : List Nat
  pos : Nat
deriving DecidableEq

/-- Python `f.read(n)` for a nonnegative count: up to `n` bytes starting
at the cursor; the cursor advances by the number of bytes actually read. -/
def PyFile.read (f : PyFile) (n : Nat) : List Nat × PyFile :=
  ((f.data.drop f.pos).take n, ⟨f.data, f.pos + ((f.data.drop f.pos).take n).length⟩)

/-- Python `f.seek(n, 0)`: absolute positioning (allowed past the end). -/
def PyFile.seek (f : PyFile) (n : Nat) : PyFile := ⟨f.data, n⟩

/-- Bytes remaining after the cursor. -/
def PyFile.remaining (f : PyFile) : Nat := f.data.length - f.pos

/-- Little-endian value of a list of bytes. -/
def leVal : List Nat → Nat
  | [] => 0
  | b :: bs => b + 256 * leVal bs

/-- Field extraction: `width` bytes at byte offset `off`, little-endian,
as done by `struct.unpack` on the format strings used in the source. -/
def fld (bs : List Nat) (off width : Nat) : Nat := leVal ((bs.drop off).take width)

/-- Strip trailing null bytes, Python `s.rstrip(chr 0)`. -/
def rstripNull (s : List Nat) : List Nat :=
  ((s.reverse.dropWhile fun b => b = 0).reverse)

/-- Strip null bytes from both ends, Python `s.strip(chr 0)`. -/
def stripNull (s : List Nat) : List Nat :=
  rstripNull (s.dropWhile fun b => b = 0)

/-- ASCII bytes of a Lean string literal, for writing concrete Python
byte strings. -/
def ascii (s : String) : List Nat := s.data.map Char.toNat

/-- The `FileHdr` record, format `<HHLLLHHH` (22 bytes). -/
structure FileHdr where
  magic : Nat
  nscns : Nat
  timdat : Nat
  symptr : Nat
  nsyms : Nat
  opthdr : Nat
  flags : Nat
  target_id : Nat
deriving DecidableEq

def FileHdr.structlen : Nat := 22

def decodeFileHdr (bs : List Nat) : FileHdr :=
  ⟨fld bs 0 2, fld bs 2 2, fld bs 4 4, fld bs 8 4, fld bs 12 4,
   fld bs 16 2, fld bs 18 2, fld bs 20 2⟩

/-- The `OptHdr` record, format `<HHLLLLLL` (28 bytes). -/
structure OptHdr where
  magic : Nat
  vstamp : Nat
  tsize : Nat
  dsize : Nat
  bsize : Nat
  entry : Nat
  text_start : Nat
  data_start : Nat
deriving DecidableEq

def OptHdr.structlen : Nat := 28

def decodeOptHdr (bs : List Nat) : OptHdr :=
  ⟨fld bs 0 2, fld bs 2 2, fld bs 4 4, fld bs 8 4, fld bs 12 4,
   fld bs 16 4, fld bs 20 4, fld bs 24 4⟩

/-- The `SecHdr` record, format `<8sLLLLLLLLLHH` (48 bytes). -/
structure SecHdr where
  orig_name : List Nat
  paddr : Nat
  vaddr : Nat
  size : Nat
  scnptr : Nat
  relptr : Nat
  lnnoptr : Nat
  nreloc : Nat
  nlnno : Nat
  flags : Nat
  reserved : Nat
  page : Nat
deriving DecidableEq

def SecHdr.structlen : Nat := 48

/-- `SecHdr.name`: the raw 8-byte name with trailing nulls stripped. -/
def SecHdr.name (s : SecHdr) : List Nat := rstripNull s.orig_name

def decodeSecHdr (bs : List Nat) : SecHdr :=
  ⟨bs.take 8, fld bs 8 4, fld bs 12 4, fld bs 16 4, fld bs 20 4, fld bs 24 4,
   fld bs 28 4, fld bs 32 4, fld bs 36 4, fld bs 40 4, fld bs 44 2, fld bs 46 2⟩

/-- The `RelocHdr` record, format `<LLHH` (12 bytes). -/
structure RelocHdr where
  vaddr : Nat
  symndx : Nat
  reserved : Nat
  type : Nat
deriving DecidableEq

def RelocHdr.structlen : Nat := 12

def decodeRelocHdr (bs : List Nat) : RelocHdr :=
  ⟨fld bs 0 4, fld bs 4 4, fld bs 8 2, fld bs 10 2⟩

/-- The `SymentHdr` record, format `<8sLHHBB` (18 bytes). -/
structure SymentHdr where
  orig_name : List Nat
  value : Nat
  scnum : Nat
  type : Nat
  sclass : Nat
  numaux : Nat
deriving DecidableEq

def SymentHdr.structlen : Nat := 18

def decodeSyment (bs : List Nat) : SymentHdr :=
  ⟨bs.take 8, fld bs 8 4, fld bs 12 2, fld bs 14 2, fld bs 16 1, fld bs 17 1⟩

/-- First little-endian word of the raw symbol name field,
`struct.unpack('II', orig_name)[0]`. -/
def SymentHdr.w0 (s : SymentHdr) : Nat := fld s.orig_name 0 4

/-- Second little-endian word of the raw symbol name field,
`struct.unpack('II', orig_name)[1]`. -/
def SymentHdr.w1 (s : SymentHdr) : Nat := fld s.orig_name 4 4

/-- `SymentHdr.name`: `None` when the first word is zero, otherwise the
raw bytes with trailing nulls stripped. -/
def SymentHdr.name (s : SymentHdr) : Option (List Nat) :=
  if s.w0 = 0 then none else some (rstripNull s.orig_name)

/-- `SymentHdr.offset`: `-1` when the first word is nonzero, otherwise the
second word, a byte offset into the string table. -/
def SymentHdr.offset (s : SymentHdr) : Int :=
  if s.w0 ≠ 0 then -1 else (s.w1 : Int)

/-- `Coff.readstruct`: read exactly `n` bytes (raising `EOFError`,
modelled as `none`, when fewer remain) and decode them with the record
layout's decoder. -/
def readstruct {α : Type} (decode : List Nat → α) (n : Nat) (f : PyFile) :
    Option (α × PyFile) :=
  if (f.read n).1.length = n then some (decode (f.read n).1, (f.read n).2) else none

def readFileHdr (f : PyFile) : Option (FileHdr × PyFile) :=
  readstruct decodeFileHdr FileHdr.structlen f

def readOptHdr (f : PyFile) : Option (OptHdr × PyFile) :=
  readstruct decodeOptHdr OptHdr.structlen f

def readSecHdr (f : PyFile) : Option (SecHdr × PyFile) :=
  readstruct decodeSecHdr SecHdr.structlen f

def readRelocHdr (f : PyFile) : Option (RelocHdr × PyFile) :=
  readstruct decodeRelocHdr RelocHdr.structlen f

def readSyment (f : PyFile) : Option (SymentHdr × PyFile) :=
  readstruct decodeSyment SymentHdr.structlen f

/-- The list comprehension `[self.readstruct(T) for _ in range(n)]`:
`n` consecutive records, failing as soon as one read fails. -/
def readN {α : Type} (rd : PyFile → Option (α × PyFile)) :
    Nat → PyFile → Option (List α × PyFile)
  | 0, f => some ([], f)
  | n + 1, f =>
    (rd f).bind fun p =>
      (readN rd n p.2).bind fun q => some (p.1 :: q.1, q.2)

/-- One pass of the inner character loop of the string-table scan:
bytes until a null byte or end of input; the terminating null, when
present, is consumed but not part of the string.  Returns the string and
the new cursor position. -/
def readCStr (data : List Nat) (pos : Nat) : List Nat × Nat :=
  let s := (data.drop pos).takeWhile fun b => b ≠ 0
  if pos + s.length < data.length then (s, pos + s.length + 1) else (s, pos + s.length)

/-- The `while True` loop of the string-table scan in `Coff.__init__`:
record `off = f.tell() - baseoff`; stop when `off >= nstrs`; otherwise
read one null-terminated string and continue.  When the cursor cannot
advance (end of input before the stop condition) the Python loop never
terminates; this is modelled as `none`.  `fuel` bounds the recursion; the
parser passes `nstrs + 1`, which is more than the possible number of
iterations since `off` starts at 4 and strictly increases. -/
def scanLoop (data : List Nat) (baseoff nstrs : Nat) :
    Nat → Nat → Option (List (Nat × List Nat))
  | _, 0 => none
  | pos, fuel + 1 =>
    if pos - baseoff ≥ nstrs then some []
    else
      let sp := readCStr data pos
      if sp.2 = pos then none
      else
        (scanLoop data baseoff nstrs sp.2 fuel).bind fun rest =>
          some ((pos - baseoff, sp.1) :: rest)

/-- Lines 126-138 of `Coff.__init__`: remember `baseoff`, read the 4-byte
string-table length (a short read makes `struct.unpack` raise, modelled
as `none`), then scan null-terminated strings. -/
def readStringTable (f : PyFile) : Option (List (Nat × List Nat)) :=
  if (f.read 4).1.length = 4 then
    scanLoop f.data f.pos (leVal (f.read 4).1) (f.read 4).2.pos (leVal (f.read 4).1 + 1)
  else none

/-- Insert into a Python dict modelled as an association list: replace
the value of an existing key, otherwise append at the end. -/
def dictInsert {β : Type} (k : List Nat) (v : β) :
    List (List Nat × β) → List (List Nat × β)
  | [] => [(k, v)]
  | p :: rest => if p.1 = k then (k, v) :: rest else p :: dictInsert k v rest

/-- Lookup in a Python dict modelled as an association list. -/
def dictLookup {β : Type} (k : List Nat) : List (List Nat × β) → Option β
  | [] => none
  | p :: rest => if p.1 = k then some p.2 else dictLookup k rest

/-- The list comprehension
`[(s.name, s.relptr, s.nreloc) for s in self.sechdr if s.relptr != 0]`. -/
def relocSecs (secs : List SecHdr) : List (List Nat × Nat × Nat) :=
  (secs.filter fun s => s.relptr ≠ 0).map fun s => (s.name, s.relptr, s.nreloc)

/-- The relocation-reading loop of `Coff.__init__`: for each entry seek
to its relocation offset, read `nreloc` records and store them in the
dict under the section name. -/
def relocLoop : List (List Nat × Nat × Nat) →
    List (List Nat × List RelocHdr) → PyFile →
    Option (List (List Nat × List RelocHdr) × PyFile)
  | [], d, f => some (d, f)
  | t :: rest, d, f =>
    (readN readRelocHdr t.2.2 (f.seek t.2.1)).bind fun p =>
      relocLoop rest (dictInsert t.1 p.1 d) p.2

/-- The in-memory container built by `Coff.__init__`. -/
structure Coff where
  filehdr : FileHdr
  opthdr : Option OptHdr
  sechdr : List SecHdr
  reloc : List (List Nat × List RelocHdr)
  symbols : List SymentHdr
  strings : List (Nat × List Nat)
deriving DecidableEq

/-- The conditional optional-header read of `Coff.__init__`. -/
def readOptPart (fh : FileHdr) (f : PyFile) : Option (Option OptHdr × PyFile) :=
  if fh.opthdr ≠ 0 then
    (readOptHdr f).bind fun p => some (some p.1, p.2)
  else some (none, f)

/-- `Coff.__init__` on a byte string: file header, conditional optional
header, section headers, relocation tables, symbol table, string table.
Any decode failure aborts the whole parse. -/
def parseCoff (data : List Nat) : Option Coff :=
  (readFileHdr ⟨data, 0⟩).bind fun p1 =>
  (readOptPart p1.1 p1.2).bind fun p2 =>
  (readN readSecHdr p1.1.nscns p2.2).bind fun p3 =>
  (relocLoop (relocSecs p3.1) [] p3.2).bind fun p4 =>
  (readN readSyment p1.1.nsyms (p4.2.seek p1.1.symptr)).bind fun p5 =>
  (readStringTable p5.2).bind fun strs =>
  some ⟨p1.1, p2.1, p3.1, p4.1, p5.1, strs⟩

/-- `Coff.sectiondata`: first section whose trimmed name matches, read
`size` bytes from its raw-data offset; `None` when no section matches. -/
def sectiondata (data : List Nat) (c : Coff) (sname : List Nat) : Option (List Nat) :=
  match c.sechdr.find? fun s => s.name = sname with
  | some s => some ((data.drop s.scnptr).take s.size)
  | none => none

/-- Python list indexing, where a negative index counts from the end and
an out-of-range index raises `IndexError` (modelled as `none`). -/
def pyIndex {α : Type} (l : List α) (i : Int) : Option α :=
  if 0 ≤ i then l.get? i.toNat
  else if i.natAbs ≤ l.length then l.get? (l.length - i.natAbs) else none

/-- Python `f.read(count)` for a possibly negative count at an absolute
position: a negative count reads to the end of the data. -/
def pyReadCount (data : List Nat) (pos : Nat) (count : Int) : List Nat :=
  if count < 0 then data.drop pos else (data.drop pos).take count.toNat

/-- The boundary-scan loop of `Coff.symboldata`: starting from the
sentinel `0xffffffff`, lower it to any function-type symbol value that
is above `v` and below the current bound. -/
def nextFuncBoundary (syms : List SymentHdr) (v : Nat) : Nat :=
  syms.foldl
    (fun acc smb =>
      if smb.type = 4 ∧ v < smb.value ∧ smb.value < acc then smb.value else acc)
    0xffffffff

/-- `Coff.symboldata`: index the section list by `scnum - 1` (Python
semantics, so `scnum = 0` indexes from the end), seek to
`scnptr + value - vaddr` (a negative target raises, modelled as `none`),
and read `nextsymb - value` bytes. -/
def symboldata (data : List Nat) (c : Coff) (symbol : SymentHdr) : Option (List Nat) :=
  match pyIndex c.sechdr ((symbol.scnum : Int) - 1) with
  | none => none
  | some sec =>
    if ((sec.scnptr : Int) + symbol.value - sec.vaddr) < 0 then none
    else
      some (pyReadCount data ((sec.scnptr : Int) + symbol.value - sec.vaddr).toNat
        ((nextFuncBoundary c.symbols symbol.value : Int) - symbol.value))

/-- Name resolution as performed by the driver loop: the inline name when
present, otherwise the last string-table pair whose offset equals the
symbol's string-table key (the Python loop keeps overwriting `name`). -/
def resolveName (strs : List (Nat × List Nat)) (s : SymentHdr) : Option (List Nat) :=
  match s.name with
  | some n => some n
  | none => strs.foldl (fun acc p => if (p.1 : Int) = s.offset then some p.2 else acc) none

/-- Decimal digits of a number as ASCII bytes, Python `str` formatting
with the integer conversion specifier. -/
def natDecBytes (n : Nat) : List Nat := (Nat.toDigits 10 n).map Char.toNat

/-- The generated placeholder name of the driver. -/
def unknownName (i : Nat) : List Nat := ascii "unknown" ++ natDecBytes i

/-- Python `sorted(symbols, key=itemgetter(1))`: stable merge sort
ascending on the `value` field. -/
def pySortSyms (l : List SymentHdr) : List SymentHdr :=
  l.mergeSort fun a b => decide (a.value ≤ b.value)

/-- The driver's selection: symbols of type 4 in section 2, sorted
ascending by value. -/
def driverSyms (c : Coff) : List SymentHdr :=
  pySortSyms (c.symbols.filter fun s => s.type = 4 ∧ s.scnum = 2)

/-- The driver loop of `parsecoff.py`, modelled on the names it assigns:
resolve each symbol's name, otherwise assign the placeholder and bump the
counter. -/
def driverNamesLoop (strs : List (Nat × List Nat)) :
    List SymentHdr → Nat → List (List Nat)
  | [], _ => []
  | s :: rest, idx =>
    match resolveName strs s with
    | some n => n :: driverNamesLoop strs rest idx
    | none => unknownName idx :: driverNamesLoop strs rest (idx + 1)

/-- The names processed by the driver, with the counter starting at 1. -/
def driverNames (c : Coff) : List (List Nat) :=
  driverNamesLoop c.strings (driverSyms c) 1

/-- Number of symbols in a list whose name does not resolve. -/
def countUnres (strs : List (Nat × List Nat)) (l : List SymentHdr) : Nat :=
  (l.filter fun s => (resolveName strs s).isNone).length

/-- Modelled from the claim's words: each entry gets its resolved name,
and an unresolvable entry gets the placeholder numbered one more than the
number of unresolvable entries before it (`pre` is the list of entries
already processed). -/
def specNames (strs : List (Nat × List Nat)) :
    List SymentHdr → List SymentHdr → List (List Nat)
  | _, [] => []
  | pre, s :: rest =>
    (match resolveName strs s with
     | some n => n
     | none => unknownName (1 + countUnres strs pre)) ::
      specNames strs (pre ++ [s]) rest

/-- ASCII magic of the firmware-module preamble. -/
def mtchMagic : List Nat := ascii "MTCH"

/-- The error message printed on a bad preamble. -/
def invalidMsg : List Nat := ascii "Invalid MTC file!"

/-- Python slice `l[a:b]` for nonnegative bounds. -/
def pySlice (l : List Nat) (a b : Nat) : List Nat := (l.take b).drop a

/-- Observable outcome of running `extractcoff.py`: process exit code,
lines printed to standard output, and the content of the output file
(`none` when the output file was never created). -/
structure ExtractOutcome where
  exitCode : Nat
  stdout : List (List Nat)
  output : Option (List Nat)
deriving DecidableEq

/-- The module-name line printed for a valid preamble. -/
def nameLine (h : List Nat) : List Nat :=
  ascii "Module name: " ++ stripNull (pySlice h 44 59)

/-- The module-version line: the four bytes at offsets 60-63 rendered in
decimal and joined with dots. -/
def versionLine (h : List Nat) : List Nat :=
  ascii "Module version: " ++ List.intercalate [46] ((pySlice h 60 64).map natDecBytes)

/-- The module-description line. -/
def descLine (h : List Nat) : List Nat :=
  ascii "Module description: " ++ stripNull (pySlice h 64 96)

/-- `extractcoff.py` on an input byte string: read a 128-byte header; on
a magic mismatch print the error and exit 1 without creating the output
file; a header too short for the version bytes makes the indexing raise
after the name line (uncaught, so the interpreter exits 1, still before
the output file is created); otherwise print the three lines and copy the
rest of the input to the output file. -/
def extractcoff (input : List Nat) : ExtractOutcome :=
  if (input.take 128).take 4 ≠ mtchMagic then
    ⟨1, [invalidMsg], none⟩
  else if (input.take 128).length < 64 then
    ⟨1, [nameLine (input.take 128)], none⟩
  else
    ⟨0, [nameLine (input.take 128), versionLine (input.take 128),
         descLine (input.take 128)], some (input.drop 128)⟩

/-- Minimum of a list of naturals, `none` on the empty list. -/
def listMin : List Nat → Option Nat
  | [] => none
  | a :: as =>
    match listMin as with
    | none => some a
    | some m => some (min a m)

/-- Values of the function-type symbols lying strictly above `v`, the
candidate boundaries of the claim. -/
def candVals (syms : List SymentHdr) (v : Nat) : List Nat :=
  (syms.filter fun s => s.type = 4 ∧ v < s.value).map SymentHdr.value

/-- Modelled from the claim's words: the boundary is the minimum value
over all function-type symbol entries whose value is strictly greater
than `v`, or the sentinel `0xffffffff` when no such entry exists. -/
def funcBoundary (syms : List SymentHdr) (v : Nat) : Nat :=
  match listMin (candVals syms v) with
  | none => 4294967295
  | some m => m

/-- The last section in header order whose trimmed name is `n` and whose
relocation file offset is nonzero. -/
def lastSec (n : List Nat) : List SecHdr → Option SecHdr
  | [] => none
  | s :: rest =>
    match lastSec n rest with
    | some m => some m
    | none => if s.name = n ∧ s.relptr ≠ 0 then some s else none

/-- The last entry with key `k` in a relocation work list. -/
def lastMatch (k : List Nat) : List (List Nat × Nat × Nat) → Option (List Nat × Nat × Nat)
  | [] => none
  | t :: rest =>
    match lastMatch k rest with
    | some m => some m
    | none => if t.1 = k then some t else none

/-- The relocation records decoded from file offset `rp`. -/
def relocsOf (data : List Nat) (rp nr : Nat) : Option (List RelocHdr) :=
  (readN readRelocHdr nr ⟨data, rp⟩).map Prod.fst

/-- The symbol-table records decoded from file offset `off`. -/
def symbolsAt (data : List Nat) (off n : Nat) : Option (List SymentHdr) :=
  (readN readSyment n ⟨data, off⟩).map Prod.fst

/-! ### Helper lemmas -/

lemma readstruct_eq_none_iff {α : Type} (decode : List Nat → α) (n : Nat) (f : PyFile) :
    readstruct decode n f = none ↔ f.remaining < n := by
  unfold readstruct PyFile.read PyFile.remaining
  simp only [List.length_take, List.length_drop]
  rcases Nat.lt_or_ge (f.data.length - f.pos) n with h | h
  · rw [if_neg (by omega)]
    simp [h]
  · rw [if_pos (by omega)]
    simp
    omega

lemma readstruct_data {α : Type} (decode : List Nat → α) (n : Nat)
    (f : PyFile) (a : α) (f' : PyFile)
    (h : readstruct decode n f = some (a, f')) : f'.data = f.data := by
  unfold readstruct at h
  split at h
  · cases h
    rfl
  · cases h

lemma readN_data {α : Type} (rd : PyFile → Option (α × PyFile))
    (hrd : ∀ f a f', rd f = some (a, f') → f'.data = f.data) :
    ∀ (n : Nat) (f : PyFile) (l : List α) (f' : PyFile),
      readN rd n f = some (l, f') → f'.data = f.data := by
  intro n
  induction n with
  | zero =>
    intro f l f' h
    unfold readN at h
    cases h
    rfl
  | succ m ih =>
    intro f l f' h
    unfold readN at h
    simp only [Option.bind_eq_some] at h
    obtain ⟨p, hp, q, hq, he⟩ := h
    cases he
    exact (ih p.2 q.1 q.2 hq).trans (hrd f p.1 p.2 hp)

lemma readN_length {α : Type} (rd : PyFile → Option (α × PyFile)) :
    ∀ (n : Nat) (f : PyFile) (l : List α) (f' : PyFile),
      readN rd n f = some (l, f') → l.length = n := by
  intro n
  induction n with
  | zero =>
    intro f l f' h
    unfold readN at h
    cases h
    rfl
  | succ m ih =>
    intro f l f' h
    unfold readN at h
    simp only [Option.bind_eq_some] at h
    obtain ⟨p, hp, q, hq, he⟩ := h
    cases he
    simp [ih p.2 q.1 q.2 hq]

lemma readOptPart_data (fh : FileHdr) (f : PyFile) (oh : Option OptHdr) (f' : PyFile)
    (h : readOptPart fh f = some (oh, f')) : f'.data = f.data := by
  unfold readOptPart at h
  split at h
  · simp only [Option.bind_eq_some] at h
    obtain ⟨p, hp, he⟩ := h
    cases he
    exact readstruct_data decodeOptHdr OptHdr.structlen f p.1 p.2 hp
  · cases h
    rfl

lemma relocLoop_data :
    ∀ (L : List (List Nat × Nat × Nat)) (d : List (List Nat × List RelocHdr))
      (f : PyFile) (res : List (List Nat × List RelocHdr)) (f' : PyFile),
      relocLoop L d f = some (res, f') → f'.data = f.data := by
  intro L
  induction L with
  | nil =>
    intro d f res f' h
    unfold relocLoop at h
    cases h
    rfl
  | cons t rest ih =>
    intro d f res f' h
    unfold relocLoop at h
    simp only [Option.bind_eq_some] at h
    obtain ⟨p, hp, hr⟩ := h
    have h1 : p.2.data = (f.seek t.2.1).data :=
      readN_data readRelocHdr
        (fun g a g' hg => readstruct_data decodeRelocHdr RelocHdr.structlen g a g' hg)
        t.2.2 (f.seek t.2.1) p.1 p.2 hp
    exact (ih _ p.2 res f' hr).trans h1

/-! ### Claim C7 -/

/-- Claim C7: the record decoder fails with a truncated-input error
exactly when fewer bytes remain than the layout's total width, and such a
failure during container parsing aborts the parse, so no partial
container is returned (shown here for a file too short to hold even the
file header). -/
theorem readstruct_truncation :
    (∀ (α : Type) (decode : List Nat → α) (n : Nat) (f : PyFile),
        readstruct decode n f = none ↔ f.remaining < n)
  ∧ (∀ data : List Nat, data.length < FileHdr.structlen → parseCoff data = none) := by
  constructor
  · intro α decode n f
    exact readstruct_eq_none_iff decode n f
  · intro data h
    unfold parseCoff readFileHdr
    have hn : readstruct decodeFileHdr FileHdr.structlen ⟨data, 0⟩ = none := by
      rw [readstruct_eq_none_iff]
      unfold PyFile.remaining
      simpa using h
    rw [hn]
    rfl

theorem readstruct_truncation_witness :
    readstruct decodeFileHdr 22 (⟨[], 0⟩ : PyFile) = none ∧ parseCoff [] = none :=
  ⟨(readstruct_truncation.1 FileHdr decodeFileHdr 22 ⟨[], 0⟩).mpr (by decide),
   readstruct_truncation.2 [] (by decide)⟩

/-! ### Claim C3 -/

/-- The string table of the claim: length 10 followed by the ten bytes
of the two null-terminated strings and two trailing null bytes. -/
def stringTableSample : List Nat :=
  [10, 0, 0, 0] ++ ascii "foo" ++ [0] ++ ascii "bar" ++ [0, 0, 0]

/-- Claim C3 counterexample: on the sample table the scan does not yield
the pairs (0, foo) and (4, bar); the offsets it records are measured from
the start of the 4-byte length field, not from the byte after it. -/
theorem stringTable_scan_not_as_claimed :
    readStringTable ⟨stringTableSample, 0⟩ ≠
      some [(0, ascii "foo"), (4, ascii "bar")] := by decide

/-- Claim C3 amended: the scan yields exactly the pairs (4, foo) and
(8, bar) — offsets measured from the start of the length field itself —
and stops once the running offset reaches the recorded length 10, so the
trailing null bytes contribute no pair. -/
theorem stringTable_scan_offsets :
    readStringTable ⟨stringTableSample, 0⟩ =
      some [(4, ascii "foo"), (8, ascii "bar")] := by decide

/-! ### Claim C9 -/

/-- Claim C9: an input whose first four bytes are not the MTCH magic
makes the module extractor exit with code 1 after printing the error
message, and the output file is never created. -/
theorem extractcoff_bad_magic (input : List Nat) (h : input.take 4 ≠ mtchMagic) :
    extractcoff input = ⟨1, [invalidMsg], none⟩ := by
  have ht : (input.take 128).take 4 = input.take 4 := by
    rw [List.take_take]
    norm_num
  unfold extractcoff
  rw [if_pos (by rw [ht]; exact h)]

theorem extractcoff_bad_magic_witness :
    extractcoff [0, 1, 2, 3] = ⟨1, [invalidMsg], none⟩ :=
  extractcoff_bad_magic [0, 1, 2, 3] (by decide)

/-! ### Claim C4 -/

/-- Claim C4: symbol-name resolution is total and exclusive — the branch
is decided solely by whether the first little-endian word of the raw
8-byte name field is zero; a zero word gives no inline name and the
second word as string-table key, a nonzero word gives the trailing-null
stripped raw bytes as name and no string-table key. -/
theorem symbol_name_resolution (s : SymentHdr) (_h8 : s.orig_name.length = 8) :
    (s.w0 = 0 → s.name = none ∧ s.offset = (s.w1 : Int)) ∧
    (s.w0 ≠ 0 → s.name = some (rstripNull s.orig_name) ∧ s.offset = -1) := by
  constructor
  · intro h
    constructor
    · unfold SymentHdr.name
      rw [if_pos h]
    · unfold SymentHdr.offset
      rw [if_neg (by simp [h])]
  · intro h
    constructor
    · unfold SymentHdr.name
      rw [if_neg h]
    · unfold SymentHdr.offset
      rw [if_pos h]

/-- A symbol entry whose name field holds the string-table key 5. -/
def c4sym : SymentHdr := ⟨[0, 0, 0, 0, 5, 0, 0, 0], 0, 0, 0, 0, 0⟩

theorem symbol_name_resolution_witness :
    c4sym.name = none ∧ c4sym.offset = (c4sym.w1 : Int) :=
  (symbol_name_resolution c4sym (by decide)).1 (by decide)

/-! ### Claim C8 -/

/-- Claim C8: `sectiondata` returns the `size` bytes read from file
offset `scnptr` of a section whose trimmed name matches (the first such
section, exactly `size` bytes whenever the file reaches that far), and
returns no result when no section's trimmed name matches. -/
theorem sectiondata_spec (data : List Nat) (c : Coff) (sname : List Nat) :
    (∀ S0 ∈ c.sechdr, S0.name = sname →
      ∃ S, S ∈ c.sechdr ∧ S.name = sname ∧
        sectiondata data c sname = some ((data.drop S.scnptr).take S.size) ∧
        (S.scnptr + S.size ≤ data.length →
          ((data.drop S.scnptr).take S.size).length = S.size))
  ∧ ((∀ S0 ∈ c.sechdr, S0.name ≠ sname) → sectiondata data c sname = none) := by
  constructor
  · intro S0 hmem hname
    have hsome : (c.sechdr.find? fun s => s.name = sname).isSome := by
      rw [List.find?_isSome]
      exact ⟨S0, hmem, by simp [hname]⟩
    obtain ⟨S, hS⟩ := Option.isSome_iff_exists.mp hsome
    refine ⟨S, List.mem_of_find?_eq_some hS, by simpa using List.find?_some hS, ?_, ?_⟩
    · unfold sectiondata
      rw [hS]
    · intro hlen
      simp only [List.length_take, List.length_drop]
      omega
  · intro hall
    unfold sectiondata
    have hnone : c.sechdr.find? (fun s => s.name = sname) = none := by
      rw [List.find?_eq_none]
      intro s hs
      simp [hall s hs]
    rw [hnone]

/-- A two-section container for exercising `sectiondata`. -/
def c8sec1 : SecHdr := ⟨[116, 101, 120, 116, 0, 0, 0, 0], 0, 0, 3, 2, 0, 0, 0, 0, 0, 0, 0⟩

def c8sec2 : SecHdr := ⟨[100, 97, 116, 97, 0, 0, 0, 0], 0, 0, 2, 5, 0, 0, 0, 0, 0, 0, 0⟩

def c8coff : Coff := ⟨⟨0, 2, 0, 0, 0, 0, 0, 0⟩, none, [c8sec1, c8sec2], [], [], []⟩

def c8data : List Nat := [10, 11, 12, 13, 14, 15, 16]

theorem sectiondata_spec_witness :
    ∃ S, S ∈ c8coff.sechdr ∧ S.name = ascii "text" ∧
      sectiondata c8data c8coff (ascii "text") =
        some ((c8data.drop S.scnptr).take S.size) ∧
      (S.scnptr + S.size ≤ c8data.length →
        ((c8data.drop S.scnptr).take S.size).length = S.size) :=
  (sectiondata_spec c8data c8coff (ascii "text")).1 c8sec1 (by decide) (by decide)

/-! ### Claim C2 -/

lemma foldl_step_eq_foldl_min (v : Nat) :
    ∀ (l : List SymentHdr) (init : Nat),
      l.foldl
        (fun acc smb =>
          if smb.type = 4 ∧ v < smb.value ∧ smb.value < acc then smb.value else acc)
        init
      = (candVals l v).foldl min init := by
  intro l
  induction l with
  | nil =>
    intro init
    rfl
  | cons s t ih =>
    intro init
    by_cases hc : s.type = 4 ∧ v < s.value
    · have hcv : candVals (s :: t) v = s.value :: candVals t v := by
        unfold candVals
        rw [List.filter_cons_of_pos (by simpa using hc)]
        rfl
      rw [hcv]
      simp only [List.foldl_cons]
      have hstep :
          (if s.type = 4 ∧ v < s.value ∧ s.value < init then s.value else init)
            = min init s.value := by
        by_cases hlt : s.value < init
        · rw [if_pos ⟨hc.1, hc.2, hlt⟩]
          omega
        · rw [if_neg (by tauto)]
          omega
      rw [hstep, ih]
    · have hcv : candVals (s :: t) v = candVals t v := by
        unfold candVals
        rw [List.filter_cons_of_neg (by simpa using hc)]
      rw [hcv]
      simp only [List.foldl_cons]
      have hstep :
          (if s.type = 4 ∧ v < s.value ∧ s.value < init then s.value else init) = init := by
        rw [if_neg (by tauto)]
      rw [hstep, ih]

lemma foldl_min_eq_listMin :
    ∀ (l : List Nat) (init : Nat),
      l.foldl min init =
        match listMin l with
        | none => init
        | some m => min init m := by
  intro l
  induction l with
  | nil =>
    intro init
    rfl
  | cons a t ih =>
    intro init
    simp only [List.foldl_cons]
    rw [ih]
    have hl : listMin (a :: t) =
        match listMin t with
        | none => some a
        | some m => some (min a m) := rfl
    rw [hl]
    cases ht : listMin t with
    | none => rfl
    | some m =>
      show min init a ⊓ m = init ⊓ (a ⊓ m)
      rw [min_assoc]

lemma listMin_mem : ∀ (l : List Nat) (m : Nat), listMin l = some m → m ∈ l := by
  intro l
  induction l with
  | nil =>
    intro m h
    cases h
  | cons a t ih =>
    intro m h
    unfold listMin at h
    cases ht : listMin t with
    | none =>
      rw [ht] at h
      cases h
      exact List.mem_cons_self a t
    | some m0 =>
      rw [ht] at h
      cases h
      rcases min_choice a m0 with hmin | hmin <;> rw [hmin]
      · exact List.mem_cons_self a t
      · exact List.mem_cons_of_mem a (ih m0 ht)

lemma nextFuncBoundary_eq (syms : List SymentHdr) (v : Nat)
    (h32 : ∀ s ∈ syms, s.value ≤ 4294967295) :
    nextFuncBoundary syms v = funcBoundary syms v := by
  unfold nextFuncBoundary funcBoundary
  rw [foldl_step_eq_foldl_min, foldl_min_eq_listMin]
  cases hm : listMin (candVals syms v) with
  | none => rfl
  | some m =>
    have hmem := listMin_mem (candVals syms v) m hm
    unfold candVals at hmem
    simp only [List.mem_map, List.mem_filter, decide_eq_true_eq] at hmem
    obtain ⟨s, ⟨hs, _⟩, hveq⟩ := hmem
    have hle : m ≤ 4294967295 := hveq ▸ h32 s hs
    show min 4294967295 m = m
    exact min_eq_right hle

lemma le_funcBoundary (syms : List SymentHdr) (v : Nat) (hv : v ≤ 4294967295) :
    v ≤ funcBoundary syms v := by
  unfold funcBoundary
  cases hm : listMin (candVals syms v) with
  | none => exact hv
  | some m =>
    have hmem := listMin_mem (candVals syms v) m hm
    unfold candVals at hmem
    simp only [List.mem_map, List.mem_filter, decide_eq_true_eq] at hmem
    obtain ⟨s, ⟨_, hlt⟩, hval⟩ := hmem
    show v ≤ m
    omega

/-- Claim C2: for a symbol whose section number validly indexes the
section list and whose value lies inside the owning section's virtual
address range, `symboldata` reads from file offset
`S.scnptr + (value - S.vaddr)` and requests exactly
`funcBoundary - value` bytes, where `funcBoundary` is the minimum value
over all function-type symbol entries above `value`, or the sentinel
`0xffffffff` when none exists. -/
theorem symboldata_span (data : List Nat) (c : Coff) (sym : SymentHdr) (S : SecHdr)
    (h1 : 1 ≤ sym.scnum)
    (hS : c.sechdr.get? (sym.scnum - 1) = some S)
    (hv : sym.value ≤ 4294967295)
    (h32 : ∀ s ∈ c.symbols, s.value ≤ 4294967295)
    (hlo : S.vaddr ≤ sym.value)
    (_hhi : sym.value < S.vaddr + S.size) :
    symboldata data c sym =
      some ((data.drop (S.scnptr + (sym.value - S.vaddr))).take
        (funcBoundary c.symbols sym.value - sym.value)) := by
  have hidx : pyIndex c.sechdr ((sym.scnum : Int) - 1) = some S := by
    unfold pyIndex
    rw [if_pos (by omega)]
    have he : ((sym.scnum : Int) - 1).toNat = sym.scnum - 1 := by omega
    rw [he, hS]
  have hform : symboldata data c sym =
      if ((S.scnptr : Int) + sym.value - S.vaddr) < 0 then none
      else
        some (pyReadCount data ((S.scnptr : Int) + sym.value - S.vaddr).toNat
          ((nextFuncBoundary c.symbols sym.value : Int) - sym.value)) := by
    unfold symboldata
    rw [hidx]
  rw [hform]
  rw [if_neg (by omega)]
  rw [nextFuncBoundary_eq c.symbols sym.value h32]
  have hfb := le_funcBoundary c.symbols sym.value hv
  unfold pyReadCount
  rw [if_neg (by omega)]
  have e1 : ((S.scnptr : Int) + sym.value - S.vaddr).toNat
      = S.scnptr + (sym.value - S.vaddr) := by omega
  have e2 : ((funcBoundary c.symbols sym.value : Int) - sym.value).toNat
      = funcBoundary c.symbols sym.value - sym.value := by omega
  rw [e1, e2]

/-- A one-section container with two function symbols for exercising
`symboldata`: the section is loaded at virtual address 16 with raw data
at file offset 2, and the two functions sit at addresses 16 and 20. -/
def c2sec : SecHdr := ⟨[116, 0, 0, 0, 0, 0, 0, 0], 0, 16, 8, 2, 0, 0, 0, 0, 0, 0, 0⟩

def c2sym1 : SymentHdr := ⟨[102, 0, 0, 0, 0, 0, 0, 0], 16, 1, 4, 0, 0⟩

def c2sym2 : SymentHdr := ⟨[103, 0, 0, 0, 0, 0, 0, 0], 20, 1, 4, 0, 0⟩

def c2coff : Coff := ⟨⟨0, 1, 0, 0, 2, 0, 0, 0⟩, none, [c2sec], [], [c2sym1, c2sym2], []⟩

def c2data : List Nat := [0, 1, 2, 3, 4, 5, 6, 7, 8, 9]

theorem symboldata_span_witness :
    symboldata c2data c2coff c2sym1 =
      some ((c2data.drop (c2sec.scnptr + (c2sym1.value - c2sec.vaddr))).take
        (funcBoundary c2coff.symbols c2sym1.value - c2sym1.value)) :=
  symboldata_span c2data c2coff c2sym1 c2sec (by decide) (by decide) (by decide)
    (by decide) (by decide) (by decide)

/-! ### Claim C5 -/

lemma countUnres_append_resolved (strs : List (Nat × List Nat))
    (pre : List SymentHdr) (s : SymentHdr) (n : List Nat)
    (hr : resolveName strs s = some n) :
    countUnres strs (pre ++ [s]) = countUnres strs pre := by
  unfold countUnres
  rw [List.filter_append]
  simp [hr]

lemma countUnres_append_unresolved (strs : List (Nat × List Nat))
    (pre : List SymentHdr) (s : SymentHdr)
    (hr : resolveName strs s = none) :
    countUnres strs (pre ++ [s]) = countUnres strs pre + 1 := by
  unfold countUnres
  rw [List.filter_append]
  simp [hr]

lemma driverNamesLoop_eq_spec (strs : List (Nat × List Nat)) :
    ∀ (l pre : List SymentHdr) (idx : Nat), idx = 1 + countUnres strs pre →
      driverNamesLoop strs l idx = specNames strs pre l := by
  intro l
  induction l with
  | nil =>
    intro pre idx h
    rfl
  | cons s t ih =>
    intro pre idx h
    unfold driverNamesLoop specNames
    cases hr : resolveName strs s with
    | some n =>
      show n :: driverNamesLoop strs t idx = n :: specNames strs (pre ++ [s]) t
      congr 1
      exact ih (pre ++ [s]) idx (by rw [countUnres_append_resolved strs pre s n hr, h])
    | none =>
      show unknownName idx :: driverNamesLoop strs t (idx + 1)
          = unknownName (1 + countUnres strs pre) :: specNames strs (pre ++ [s]) t
      rw [h]
      congr 1
      exact ih (pre ++ [s]) (1 + countUnres strs pre + 1)
        (by rw [countUnres_append_unresolved strs pre s hr]; omega)

/-- Claim C5: the driver processes exactly the symbol-table entries of
type 4 in section 2 (a permutation of that filter), in ascending order
of value, and assigns each unresolvable entry the placeholder name
numbered one past the count of unresolvable entries before it, starting
at 1. -/
theorem driver_processing (c : Coff) :
    List.Pairwise (fun a b : SymentHdr => a.value ≤ b.value) (driverSyms c)
  ∧ (driverSyms c).Perm (c.symbols.filter fun s => s.type = 4 ∧ s.scnum = 2)
  ∧ driverNames c = specNames c.strings [] (driverSyms c) := by
  refine ⟨?_, ?_, ?_⟩
  · have htrans : ∀ a b c0 : SymentHdr,
        (decide (a.value ≤ b.value)) = true → (decide (b.value ≤ c0.value)) = true →
        (decide (a.value ≤ c0.value)) = true := by
      intro a b c0 hab hbc
      simp only [decide_eq_true_eq] at *
      omega
    have htotal : ∀ a b : SymentHdr,
        ((decide (a.value ≤ b.value)) || (decide (b.value ≤ a.value))) = true := by
      intro a b
      simp only [Bool.or_eq_true, decide_eq_true_eq]
      omega
    have h := List.sorted_mergeSort htrans htotal
      (c.symbols.filter fun s => s.type = 4 ∧ s.scnum = 2)
    exact h.imp fun hab => by simpa using hab
  · exact List.mergeSort_perm (c.symbols.filter fun s => s.type = 4 ∧ s.scnum = 2)
      (fun a b => decide (a.value ≤ b.value))
  · exact driverNamesLoop_eq_spec c.strings (driverSyms c) [] 1 (by rfl)

/-! ### Claim C6 -/

/-- Claim C6: whenever parsing succeeds, the container holds exactly
`nscns` section headers and exactly `nsyms` symbol-table entries, and
the symbol table is the one decoded starting at file offset `symptr`. -/
theorem parse_counts (data : List Nat) (c : Coff) (h : parseCoff data = some c) :
    c.sechdr.length = c.filehdr.nscns ∧
    c.symbols.length = c.filehdr.nsyms ∧
    symbolsAt data c.filehdr.symptr c.filehdr.nsyms = some c.symbols := by
  unfold parseCoff at h
  simp only [Option.bind_eq_some] at h
  obtain ⟨p1, h1, p2, h2, p3, h3, p4, h4, p5, h5, strs, h6, hc⟩ := h
  cases hc
  refine ⟨?_, ?_, ?_⟩
  · exact readN_length readSecHdr p1.1.nscns p2.2 p3.1 p3.2 h3
  · exact readN_length readSyment p1.1.nsyms (p4.2.seek p1.1.symptr) p5.1 p5.2 h5
  · have hd1 : p1.2.data = data :=
      readstruct_data decodeFileHdr FileHdr.structlen ⟨data, 0⟩ p1.1 p1.2 h1
    have hd2 : p2.2.data = data := (readOptPart_data p1.1 p1.2 p2.1 p2.2 h2).trans hd1
    have hd3 : p3.2.data = data :=
      (readN_data readSecHdr
        (fun g a g' hg => readstruct_data decodeSecHdr SecHdr.structlen g a g' hg)
        p1.1.nscns p2.2 p3.1 p3.2 h3).trans hd2
    have hd4 : p4.2.data = data := (relocLoop_data _ [] p3.2 p4.1 p4.2 h4).trans hd3
    have hseek : p4.2.seek p1.1.symptr = (⟨data, p1.1.symptr⟩ : PyFile) := by
      unfold PyFile.seek
      rw [hd4]
    unfold symbolsAt
    rw [← hseek, h5]
    rfl

/-- A minimal well-formed container: zero sections, zero symbols, an
empty string table. -/
def c6data : List Nat :=
  [0, 0, 0, 0, 0, 0, 0, 0, 22, 0, 0, 0, 0, 0, 0, 0, 0, 0, 0, 0, 0, 0] ++ [4, 0, 0, 0]

def c6coff : Coff := ⟨⟨0, 0, 0, 22, 0, 0, 0, 0⟩, none, [], [], [], []⟩

theorem parse_counts_witness :
    c6coff.sechdr.length = c6coff.filehdr.nscns ∧
    c6coff.symbols.length = c6coff.filehdr.nsyms ∧
    symbolsAt c6data c6coff.filehdr.symptr c6coff.filehdr.nsyms = some c6coff.symbols :=
  parse_counts c6data c6coff (by decide)

/-! ### Claim C10 -/

lemma dictLookup_insert_self {β : Type} (k : List Nat) (v : β)
    (d : List (List Nat × β)) : dictLookup k (dictInsert k v d) = some v := by
  induction d with
  | nil =>
    unfold dictInsert dictLookup
    rw [if_pos rfl]
  | cons p rest ih =>
    unfold dictInsert
    by_cases hp : p.1 = k
    · rw [if_pos hp]
      unfold dictLookup
      rw [if_pos rfl]
    · rw [if_neg hp]
      unfold dictLookup
      rw [if_neg hp]
      exact ih

lemma dictLookup_insert_other {β : Type} (k k' : List Nat) (v : β)
    (d : List (List Nat × β)) (h : k' ≠ k) :
    dictLookup k (dictInsert k' v d) = dictLookup k d := by
  induction d with
  | nil =>
    unfold dictInsert dictLookup
    rw [if_neg h]
    rfl
  | cons p rest ih =>
    unfold dictInsert
    by_cases hp : p.1 = k'
    · rw [if_pos hp]
      unfold dictLookup
      rw [if_neg h, if_neg (hp ▸ h)]
    · rw [if_neg hp]
      unfold dictLookup
      by_cases hk : p.1 = k
      · rw [if_pos hk, if_pos hk]
      · rw [if_neg hk, if_neg hk]
        exact ih

lemma relocLoop_lookup :
    ∀ (L : List (List Nat × Nat × Nat)) (d : List (List Nat × List RelocHdr))
      (f : PyFile) (res : List (List Nat × List RelocHdr)) (f' : PyFile),
      relocLoop L d f = some (res, f') →
      ∀ k : List Nat,
        match lastMatch k L with
        | none => dictLookup k res = dictLookup k d
        | some t => dictLookup k res = relocsOf f.data t.2.1 t.2.2 ∧
            (relocsOf f.data t.2.1 t.2.2).isSome = true := by
  intro L
  induction L with
  | nil =>
    intro d f res f' h k
    unfold relocLoop at h
    cases h
    rfl
  | cons t rest ih =>
    intro d f res f' h k
    unfold relocLoop at h
    simp only [Option.bind_eq_some] at h
    obtain ⟨p, hp, hr⟩ := h
    have hpdata : p.2.data = f.data := by
      have hres := readN_data readRelocHdr
        (fun g a g' hg => readstruct_data decodeRelocHdr RelocHdr.structlen g a g' hg)
        t.2.2 (f.seek t.2.1) p.1 p.2 hp
      simpa [PyFile.seek] using hres
    have hih := ih (dictInsert t.1 p.1 d) p.2 res f' hr k
    have hl : lastMatch k (t :: rest) =
        match lastMatch k rest with
        | some m => some m
        | none => if t.1 = k then some t else none := rfl
    rw [hl]
    cases hrest : lastMatch k rest with
    | some m =>
      rw [hrest] at hih
      show dictLookup k res = relocsOf f.data m.2.1 m.2.2 ∧
        (relocsOf f.data m.2.1 m.2.2).isSome = true
      rw [← hpdata]
      exact hih
    | none =>
      rw [hrest] at hih
      by_cases hk : t.1 = k
      · subst hk
        rw [if_pos rfl]
        show dictLookup t.1 res = relocsOf f.data t.2.1 t.2.2 ∧
          (relocsOf f.data t.2.1 t.2.2).isSome = true
        have hrel : relocsOf f.data t.2.1 t.2.2 = some p.1 := by
          unfold relocsOf
          have hseek : f.seek t.2.1 = (⟨f.data, t.2.1⟩ : PyFile) := rfl
          rw [← hseek, hp]
          rfl
        rw [hrel]
        refine ⟨?_, rfl⟩
        have hih2 : dictLookup t.1 res = dictLookup t.1 (dictInsert t.1 p.1 d) := hih
        rw [hih2]
        exact dictLookup_insert_self t.1 p.1 d
      · rw [if_neg hk]
        show dictLookup k res = dictLookup k d
        have hih2 : dictLookup k res = dictLookup k (dictInsert t.1 p.1 d) := hih
        rw [hih2]
        exact dictLookup_insert_other k t.1 p.1 d hk

lemma lastMatch_relocSecs (n : List Nat) :
    ∀ secs : List SecHdr,
      lastMatch n (relocSecs secs) =
        (lastSec n secs).map fun s => (s.name, s.relptr, s.nreloc) := by
  intro secs
  induction secs with
  | nil => rfl
  | cons s t ih =>
    have h3 : lastSec n (s :: t) =
        match lastSec n t with
        | some m => some m
        | none => if s.name = n ∧ s.relptr ≠ 0 then some s else none := rfl
    by_cases hr : s.relptr ≠ 0
    · have h1 : relocSecs (s :: t) = (s.name, s.relptr, s.nreloc) :: relocSecs t := by
        unfold relocSecs
        rw [List.filter_cons_of_pos (by simpa using hr)]
        rfl
      have h2 : lastMatch n ((s.name, s.relptr, s.nreloc) :: relocSecs t) =
          match lastMatch n (relocSecs t) with
          | some m => some m
          | none =>
            if s.name = n then some (s.name, s.relptr, s.nreloc) else none := rfl
      rw [h1, h2, ih, h3]
      cases lastSec n t with
      | some m => rfl
      | none =>
        show (if s.name = n then some (s.name, s.relptr, s.nreloc) else none)
            = (if s.name = n ∧ s.relptr ≠ 0 then some s else none).map
                fun s => (s.name, s.relptr, s.nreloc)
        by_cases hn : s.name = n
        · rw [if_pos hn, if_pos ⟨hn, hr⟩]
          rfl
        · rw [if_neg hn, if_neg (by tauto)]
          rfl
    · have h1 : relocSecs (s :: t) = relocSecs t := by
        unfold relocSecs
        rw [List.filter_cons_of_neg (by simpa using hr)]
      rw [h1, ih, h3]
      cases lastSec n t with
      | some m => rfl
      | none => rw [if_neg (by tauto)]

/-- Claim C10: when several sections share a trimmed name and each has a
nonzero relocation offset, the parsed relocation map holds, under that
name, exactly the entries decoded for the last such section in header
order; the earlier sections' entries are dropped. -/
theorem reloc_last_wins (data : List Nat) (c : Coff) (h : parseCoff data = some c)
    (n : List Nat) (S : SecHdr) (hS : lastSec n c.sechdr = some S) :
    dictLookup n c.reloc = relocsOf data S.relptr S.nreloc ∧
    (relocsOf data S.relptr S.nreloc).isSome = true := by
  unfold parseCoff at h
  simp only [Option.bind_eq_some] at h
  obtain ⟨p1, h1, p2, h2, p3, h3, p4, h4, p5, h5, strs, h6, hc⟩ := h
  cases hc
  have hd1 : p1.2.data = data :=
    readstruct_data decodeFileHdr FileHdr.structlen ⟨data, 0⟩ p1.1 p1.2 h1
  have hd2 : p2.2.data = data := (readOptPart_data p1.1 p1.2 p2.1 p2.2 h2).trans hd1
  have hd3 : p3.2.data = data :=
    (readN_data readSecHdr
      (fun g a g' hg => readstruct_data decodeSecHdr SecHdr.structlen g a g' hg)
      p1.1.nscns p2.2 p3.1 p3.2 h3).trans hd2
  have hlook := relocLoop_lookup (relocSecs p3.1) [] p3.2 p4.1 p4.2 h4 n
  have hlm : lastMatch n (relocSecs p3.1) = some (S.name, S.relptr, S.nreloc) := by
    rw [lastMatch_relocSecs, hS]
    rfl
  rw [hlm] at hlook
  have hred : dictLookup n p4.1 = relocsOf p3.2.data S.relptr S.nreloc ∧
      (relocsOf p3.2.data S.relptr S.nreloc).isSome = true := hlook
  rw [hd3] at hred
  exact hred

/-- A container file with two sections both named "s" (byte 115), each
with one relocation entry: the first at file offset 118 (entry with
virtual address 1), the second at 130 (entry with virtual address 2). -/
def c10secA : SecHdr := ⟨[115, 0, 0, 0, 0, 0, 0, 0], 0, 0, 0, 0, 118, 0, 1, 0, 0, 0, 0⟩

def c10secB : SecHdr := ⟨[115, 0, 0, 0, 0, 0, 0, 0], 0, 0, 0, 0, 130, 0, 1, 0, 0, 0, 0⟩

def c10data : List Nat :=
  [0, 0, 2, 0, 0, 0, 0, 0, 142, 0, 0, 0, 0, 0, 0, 0, 0, 0, 0, 0, 0, 0] ++
  ([115, 0, 0, 0, 0, 0, 0, 0] ++ [0, 0, 0, 0] ++ [0, 0, 0, 0] ++ [0, 0, 0, 0] ++
   [0, 0, 0, 0] ++ [118, 0, 0, 0] ++ [0, 0, 0, 0] ++ [1, 0, 0, 0] ++ [0, 0, 0, 0] ++
   [0, 0, 0, 0] ++ [0, 0] ++ [0, 0]) ++
  ([115, 0, 0, 0, 0, 0, 0, 0] ++ [0, 0, 0, 0] ++ [0, 0, 0, 0] ++ [0, 0, 0, 0] ++
   [0, 0, 0, 0] ++ [130, 0, 0, 0] ++ [0, 0, 0, 0] ++ [1, 0, 0, 0] ++ [0, 0, 0, 0] ++
   [0, 0, 0, 0] ++ [0, 0] ++ [0, 0]) ++
  [1, 0, 0, 0, 0, 0, 0, 0, 0, 0, 0, 0] ++ [2, 0, 0, 0, 0, 0, 0, 0, 0, 0, 0, 0] ++
  [4, 0, 0, 0]

def c10coff : Coff :=
  ⟨⟨0, 2, 0, 142, 0, 0, 0, 0⟩, none, [c10secA, c10secB],
   [([115], [⟨2, 0, 0, 0⟩])], [], []⟩

theorem reloc_last_wins_witness :
    dictLookup [115] c10coff.reloc = relocsOf c10data c10secB.relptr c10secB.nreloc ∧
    (relocsOf c10data c10secB.relptr c10secB.nreloc).isSome = true :=
  reloc_last_wins c10data c10coff (by decide) [115] c10secB (by decide)

/-! ### Claim C1 -/

/-- A parseable container with one section (raw data `[1,2,3,4]` at file
offset 92) and one function-type symbol whose section number is 0, the
"undefined" section. -/
def c1data : List Nat :=
  [0, 0, 1, 0, 0, 0, 0, 0, 70, 0, 0, 0, 1, 0, 0, 0, 0, 0, 0, 0, 0, 0] ++
  ([115, 101, 99, 49, 0, 0, 0, 0] ++ [0, 0, 0, 0] ++ [0, 0, 0, 0] ++ [4, 0, 0, 0] ++
   [92, 0, 0, 0] ++ [0, 0, 0, 0] ++ [0, 0, 0, 0] ++ [0, 0, 0, 0] ++ [0, 0, 0, 0] ++
   [0, 0, 0, 0] ++ [0, 0] ++ [0, 0]) ++
  ([102, 0, 0, 0, 0, 0, 0, 0] ++ [0, 0, 0, 0] ++ [0, 0] ++ [4, 0] ++ [0] ++ [0]) ++
  [4, 0, 0, 0] ++ [1, 2, 3, 4]

def c1sec : SecHdr := ⟨[115, 101, 99, 49, 0, 0, 0, 0], 0, 0, 4, 92, 0, 0, 0, 0, 0, 0, 0⟩

def c1sym : SymentHdr := ⟨[102, 0, 0, 0, 0, 0, 0, 0], 0, 0, 4, 0, 0⟩

def c1coff : Coff := ⟨⟨0, 1, 0, 70, 1, 0, 0, 0⟩, none, [c1sec], [], [c1sym], []⟩

/-- Claim C1 is violated by the code: on this parsed container the
symbol's section number is 0, which is not a valid 1-based section
index, yet `symboldata` does not fail — the Python expression
`self.sechdr[symbol.scnum - 1]` indexes with -1, silently resolving the
symbol against the last section and returning that section's bytes. -/
theorem symboldata_scnum_zero_silently_resolves :
    parseCoff c1data = some c1coff ∧
    c1coff.symbols = [c1sym] ∧
    c1sym.scnum = 0 ∧
    symboldata c1data c1coff c1sym = some [1, 2, 3, 4] := by decide

end Fwtools
